import Mathlib

/-!
Verification of the linear-regression core of the Graph-Visualizer
repository (a voltage/current chart component with an ordinary
least-squares best-fit overlay).

The numeric domain of the source is the JavaScript double; the embedding
uses exact rational arithmetic `ℚ`, with Lean's total division (`x / 0 = 0`)
standing where IEEE division would produce a non-finite value.  All
definitions below are transcribed from `calculateLinearRegression`,
`generateBestFitLine` and the hard-coded `data` table of the component.
-/

/-- A measurement pair, named as in the source (`{ voltage, current }`). -/
structure Point where
  voltage : ℚ
  current : ℚ
deriving DecidableEq, Repr

/-- The five running accumulators of the first regression loop
(`sumX`, `sumY`, `sumXY`, `sumXX`, `sumYY` in the source). -/
structure Sums where
  sumX : ℚ
  sumY : ℚ
  sumXY : ℚ
  sumXX : ℚ
  sumYY : ℚ
deriving DecidableEq, Repr

/-- One iteration of the source's first loop:
`sumX += point.voltage; sumY += point.current; sumXY += point.voltage * point.current;
 sumXX += point.voltage * point.voltage; sumYY += point.current * point.current`. -/
def accumStep (s : Sums) (p : Point) : Sums :=
  { sumX := s.sumX + p.voltage
    sumY := s.sumY + p.current
    sumXY := s.sumXY + p.voltage * p.current
    sumXX := s.sumXX + p.voltage * p.voltage
    sumYY := s.sumYY + p.current * p.current }

/-- The result record `{ slope, intercept, rSquared }` of the source. -/
structure FitResult where
  slope : ℚ
  intercept : ℚ
  rSquared : ℚ
deriving DecidableEq, Repr

/-- `calculateLinearRegression`, transcribed from the source: a first loop
accumulates the five sums, then `slope` and `intercept` are computed, then a
second loop accumulates `totalVariation` and `explainedVariation`
(`Math.pow(..., 2)` is squaring), and `rSquared` is their quotient. -/
def calculateLinearRegression (ps : List Point) : FitResult :=
  let n : ℚ := ps.length
  let s : Sums := ps.foldl accumStep ⟨0, 0, 0, 0, 0⟩
  let slope : ℚ := (n * s.sumXY - s.sumX * s.sumY) / (n * s.sumXX - s.sumX * s.sumX)
  let intercept : ℚ := (s.sumY - slope * s.sumX) / n
  let meanY : ℚ := s.sumY / n
  let v : ℚ × ℚ := ps.foldl
    (fun acc p =>
      let predictedY := slope * p.voltage + intercept
      (acc.1 + (p.current - meanY) ^ 2, acc.2 + (predictedY - meanY) ^ 2))
    (0, 0)
  let rSquared : ℚ := v.2 / v.1
  { slope := slope, intercept := intercept, rSquared := rSquared }

/-- Minimum of a list of rationals, as `Math.min(...xs)` computes it over a
non-empty argument list (left fold of the binary minimum).  JavaScript's
`Math.min()` of an empty spread returns `Infinity`; the empty case is modelled
by `0`, which no claim depends on (claims about the segment's coordinates
assume a non-empty point list). -/
def listMin : List ℚ → ℚ
  | [] => 0
  | x :: xs => xs.foldl min x

/-- Maximum of a list of rationals, as `Math.max(...xs)`; empty case as in
`listMin`. -/
def listMax : List ℚ → ℚ
  | [] => 0
  | x :: xs => xs.foldl max x

/-- `generateBestFitLine`, transcribed from the source.  The component holds
`gradient` and `intercept` in nullable state (`number | null`), modelled as
`Option ℚ`; the guard `if (gradient === null || intercept === null) return []`
becomes the `none` branches. -/
def generateBestFitLine (gradient intercept : Option ℚ) (ps : List Point) : List Point :=
  match gradient, intercept with
  | none, _ => []
  | some _, none => []
  | some g, some b =>
    let minVoltage := listMin (ps.map (·.voltage))
    let maxVoltage := listMax (ps.map (·.voltage))
    [ { voltage := minVoltage, current := minVoltage * g + b },
      { voltage := maxVoltage, current := maxVoltage * g + b } ]

/-- The hard-coded 9-point dataset of the component (`data` in the source),
with the decimal literals read exactly. -/
def data : List Point :=
  [ ⟨0, 0⟩,
    ⟨0.5, 9.33⟩,
    ⟨1, 23⟩,
    ⟨1.5, 24.66⟩,
    ⟨2, 47.66⟩,
    ⟨2.5, 60.66⟩,
    ⟨3, 71.66⟩,
    ⟨3.5, 85⟩,
    ⟨4, 95.66⟩ ]

/-- The component's mutable state (`useState` hooks) together with its data:
`gradient`, `intercept` and `rSquared` start as `null`. -/
structure ComponentState where
  gradient : Option ℚ
  intercept : Option ℚ
  rSquared : Option ℚ
  data : List Point
deriving DecidableEq, Repr

/-- The `useEffect` body of the source: run `calculateLinearRegression` on the
state's data and store the three scalars via the setters.  Nothing else in the
state — in particular the data — is touched. -/
def runRegressionEffect (s : ComponentState) : ComponentState :=
  let r := calculateLinearRegression s.data
  { s with gradient := some r.slope
           intercept := some r.intercept
           rSquared := some r.rSquared }

/-! ## Specification-side sums

The claims phrase the formulas with `Σ` ranging over all points; these are
list sums over the mapped coordinates. -/

/-- `Σx` over a point list. -/
def sumX (ps : List Point) : ℚ := (ps.map (·.voltage)).sum

/-- `Σy` over a point list. -/
def sumY (ps : List Point) : ℚ := (ps.map (·.current)).sum

/-- `Σxy` over a point list. -/
def sumXY (ps : List Point) : ℚ := (ps.map (fun p => p.voltage * p.current)).sum

/-- `Σx²` over a point list. -/
def sumXX (ps : List Point) : ℚ := (ps.map (fun p => p.voltage * p.voltage)).sum

/-- `meanY = Σy / n`. -/
def meanY (ps : List Point) : ℚ := sumY ps / (ps.length : ℚ)

/-- `totalVariation = Σ(y − meanY)²`. -/
def totalVariation (ps : List Point) : ℚ :=
  (ps.map (fun p => (p.current - meanY ps) ^ 2)).sum

/-- `explainedVariation = Σ(ŷ − meanY)²` with `ŷ = slope·x + intercept`,
using the slope and intercept computed by `calculateLinearRegression` on the
same list. -/
def explainedVariation (ps : List Point) : ℚ :=
  (ps.map (fun p =>
    ((calculateLinearRegression ps).slope * p.voltage
      + (calculateLinearRegression ps).intercept - meanY ps) ^ 2)).sum

/-- The denominator `n·Σx² − Σx·Σx` of the slope formula. -/
def slopeDenominator (ps : List Point) : ℚ :=
  (ps.length : ℚ) * sumXX ps - sumX ps * sumX ps

/-- `Σy²` over a point list (the source's dead `sumYY` accumulator). -/
def sumYsq (ps : List Point) : ℚ := (ps.map (fun p => p.current * p.current)).sum

/-! ## Loop characterizations -/

theorem foldl_accumStep (ps : List Point) (s : Sums) :
    ps.foldl accumStep s =
      ⟨s.sumX + sumX ps, s.sumY + sumY ps, s.sumXY + sumXY ps,
       s.sumXX + sumXX ps, s.sumYY + sumYsq ps⟩ := by
  induction ps generalizing s with
  | nil => simp [sumX, sumY, sumXY, sumXX, sumYsq]
  | cons p ps ih =>
    simp only [List.foldl_cons, ih, accumStep, sumX, sumY, sumXY, sumXX, sumYsq,
      List.map_cons, List.sum_cons, Sums.mk.injEq]
    refine ⟨?_, ?_, ?_, ?_, ?_⟩ <;> ring

theorem foldl_variation (sl ic m : ℚ) (ps : List Point) (a b : ℚ) :
    ps.foldl
      (fun acc p =>
        (acc.1 + (p.current - m) ^ 2, acc.2 + (sl * p.voltage + ic - m) ^ 2))
      (a, b)
      = (a + (ps.map (fun p => (p.current - m) ^ 2)).sum,
         b + (ps.map (fun p => (sl * p.voltage + ic - m) ^ 2)).sum) := by
  induction ps generalizing a b with
  | nil => simp
  | cons p ps ih =>
    simp only [List.foldl_cons, ih, List.map_cons, List.sum_cons, Prod.mk.injEq]
    constructor <;> ring

theorem foldl_variation_zero (sl ic m : ℚ) (ps : List Point) :
    ps.foldl
      (fun acc p =>
        (acc.1 + (p.current - m) ^ 2, acc.2 + (sl * p.voltage + ic - m) ^ 2))
      0
      = ((ps.map (fun p => (p.current - m) ^ 2)).sum,
         (ps.map (fun p => (sl * p.voltage + ic - m) ^ 2)).sum) := by
  simpa using foldl_variation sl ic m ps 0 0

theorem fit_slope_eq (ps : List Point) :
    (calculateLinearRegression ps).slope =
      ((ps.length : ℚ) * sumXY ps - sumX ps * sumY ps)
        / ((ps.length : ℚ) * sumXX ps - sumX ps * sumX ps) := by
  simp [calculateLinearRegression, foldl_accumStep]

theorem fit_intercept_eq (ps : List Point) :
    (calculateLinearRegression ps).intercept =
      (sumY ps - (calculateLinearRegression ps).slope * sumX ps) / (ps.length : ℚ) := by
  simp [calculateLinearRegression, foldl_accumStep]

theorem fit_rSquared_eq (ps : List Point) :
    (calculateLinearRegression ps).rSquared =
      explainedVariation ps / totalVariation ps := by
  simp only [explainedVariation, totalVariation, fit_slope_eq, fit_intercept_eq, meanY]
  simp [calculateLinearRegression, foldl_accumStep, foldl_variation_zero]

/-! ## Minimum / maximum of a fold -/

theorem foldl_min_le_init (xs : List ℚ) (a : ℚ) : xs.foldl min a ≤ a := by
  induction xs generalizing a with
  | nil => simp
  | cons x xs ih =>
    exact le_trans (ih (min a x)) (min_le_left a x)

theorem foldl_min_le_of_mem (xs : List ℚ) (a y : ℚ) (h : y ∈ xs) :
    xs.foldl min a ≤ y := by
  induction xs generalizing a with
  | nil => cases h
  | cons x xs ih =>
    rcases List.mem_cons.mp h with rfl | h
    · exact le_trans (foldl_min_le_init xs (min a y)) (min_le_right a y)
    · exact ih (min a x) h

theorem foldl_min_mem (xs : List ℚ) (a : ℚ) :
    xs.foldl min a = a ∨ xs.foldl min a ∈ xs := by
  induction xs generalizing a with
  | nil => exact Or.inl rfl
  | cons x xs ih =>
    rcases ih (min a x) with h | h
    · rcases min_choice a x with h' | h'
      · exact Or.inl (by rw [List.foldl_cons, h, h'])
      · exact Or.inr (by rw [List.foldl_cons, h, h']; exact List.mem_cons_self x xs)
    · exact Or.inr (List.mem_cons_of_mem x h)

theorem foldl_max_ge_init (xs : List ℚ) (a : ℚ) : a ≤ xs.foldl max a := by
  induction xs generalizing a with
  | nil => simp
  | cons x xs ih =>
    exact le_trans (le_max_left a x) (ih (max a x))

theorem foldl_max_ge_of_mem (xs : List ℚ) (a y : ℚ) (h : y ∈ xs) :
    y ≤ xs.foldl max a := by
  induction xs generalizing a with
  | nil => cases h
  | cons x xs ih =>
    rcases List.mem_cons.mp h with rfl | h
    · exact le_trans (le_max_right a y) (foldl_max_ge_init xs (max a y))
    · exact ih (max a x) h

theorem foldl_max_mem (xs : List ℚ) (a : ℚ) :
    xs.foldl max a = a ∨ xs.foldl max a ∈ xs := by
  induction xs generalizing a with
  | nil => exact Or.inl rfl
  | cons x xs ih =>
    rcases ih (max a x) with h | h
    · rcases max_choice a x with h' | h'
      · exact Or.inl (by rw [List.foldl_cons, h, h'])
      · exact Or.inr (by rw [List.foldl_cons, h, h']; exact List.mem_cons_self x xs)
    · exact Or.inr (List.mem_cons_of_mem x h)

theorem listMin_mem (xs : List ℚ) (h : xs ≠ []) : listMin xs ∈ xs := by
  match xs with
  | [] => exact absurd rfl h
  | x :: xs =>
    show List.foldl min x xs ∈ x :: xs
    rcases foldl_min_mem xs x with h' | h'
    · rw [h']; exact List.mem_cons_self x xs
    · exact List.mem_cons_of_mem x h'

theorem listMin_le (xs : List ℚ) (y : ℚ) (h : y ∈ xs) : listMin xs ≤ y := by
  match xs with
  | x :: xs =>
    show List.foldl min x xs ≤ y
    rcases List.mem_cons.mp h with rfl | h'
    · exact foldl_min_le_init xs y
    · exact foldl_min_le_of_mem xs x y h'

theorem listMax_mem (xs : List ℚ) (h : xs ≠ []) : listMax xs ∈ xs := by
  match xs with
  | [] => exact absurd rfl h
  | x :: xs =>
    show List.foldl max x xs ∈ x :: xs
    rcases foldl_max_mem xs x with h' | h'
    · rw [h']; exact List.mem_cons_self x xs
    · exact List.mem_cons_of_mem x h'

theorem listMax_ge (xs : List ℚ) (y : ℚ) (h : y ∈ xs) : y ≤ listMax xs := by
  match xs with
  | x :: xs =>
    show y ≤ List.foldl max x xs
    rcases List.mem_cons.mp h with rfl | h'
    · exact foldl_max_ge_init xs y
    · exact foldl_max_ge_of_mem xs x y h'

/-! ## Sums of squares and the slope denominator -/

theorem sum_sq_eq_zero_iff {α : Type} (g : α → ℚ) (l : List α) :
    ((l.map (fun a => g a ^ 2)).sum = 0) ↔ ∀ a ∈ l, g a = 0 := by
  induction l with
  | nil => simp
  | cons x xs ih =>
    simp only [List.map_cons, List.sum_cons, List.mem_cons]
    constructor
    · intro h
      have hx : (0 : ℚ) ≤ g x ^ 2 := sq_nonneg _
      have hs : (0 : ℚ) ≤ (xs.map (fun a => g a ^ 2)).sum := by
        apply List.sum_nonneg
        intro y hy
        rcases List.mem_map.mp hy with ⟨a, _, rfl⟩
        exact sq_nonneg _
      rcases (add_eq_zero_iff_of_nonneg hx hs).mp h with ⟨h1, h2⟩
      refine fun a ha => ?_
      rcases ha with rfl | ha
      · exact sq_eq_zero_iff.mp h1
      · exact (ih.mp h2) a ha
    · intro h
      have h1 : g x = 0 := h x (Or.inl rfl)
      have h2 : ∀ a ∈ xs, g a = 0 := fun a ha => h a (Or.inr ha)
      simp [h1, ih.mpr h2]

theorem sum_sub_sq (ps : List Point) (c : ℚ) :
    (ps.map (fun p => (p.voltage - c) ^ 2)).sum
      = sumXX ps - 2 * c * sumX ps + (ps.length : ℚ) * c ^ 2 := by
  induction ps with
  | nil => simp [sumXX, sumX]
  | cons p ps ih =>
    simp only [List.map_cons, List.sum_cons, ih, sumXX, sumX, List.length_cons,
      Nat.cast_succ]
    ring

theorem length_cast_ne_zero (ps : List Point) (h : ps ≠ []) :
    ((ps.length : ℚ)) ≠ 0 := by
  simpa [List.length_eq_zero] using h

theorem sumX_of_const (ps : List Point) (c : ℚ) (h : ∀ p ∈ ps, p.voltage = c) :
    sumX ps = (ps.length : ℚ) * c := by
  induction ps with
  | nil => simp [sumX]
  | cons p ps ih =>
    have hp := h p (List.mem_cons_self p ps)
    have ih' := ih (fun q hq => h q (List.mem_cons_of_mem p hq))
    simp only [sumX, List.map_cons, List.sum_cons, List.length_cons, Nat.cast_succ] at ih' ⊢
    rw [hp, ih']
    ring

theorem slopeDenominator_as_variance (ps : List Point) (h : ps ≠ []) :
    slopeDenominator ps =
      (ps.length : ℚ)
        * (ps.map (fun p => (p.voltage - sumX ps / ps.length) ^ 2)).sum := by
  have hn := length_cast_ne_zero ps h
  rw [sum_sub_sq, slopeDenominator]
  field_simp
  ring

theorem slopeDenominator_eq_zero_iff (ps : List Point) (h : ps ≠ []) :
    slopeDenominator ps = 0 ↔ ∀ p ∈ ps, ∀ q ∈ ps, p.voltage = q.voltage := by
  have hn := length_cast_ne_zero ps h
  rw [slopeDenominator_as_variance ps h, mul_eq_zero]
  constructor
  · intro hz
    rcases hz with hz | hz
    · exact absurd hz hn
    · have hall := (sum_sq_eq_zero_iff (fun p => p.voltage - sumX ps / ps.length) ps).mp hz
      intro p hp q hq
      have h1 := sub_eq_zero.mp (hall p hp)
      have h2 := sub_eq_zero.mp (hall q hq)
      rw [h1, h2]
  · intro hall
    right
    rcases List.exists_mem_of_ne_nil ps h with ⟨p₀, hp₀⟩
    have hconst : ∀ p ∈ ps, p.voltage = p₀.voltage := fun p hp => hall p hp p₀ hp₀
    have hsum := sumX_of_const ps p₀.voltage hconst
    apply (sum_sq_eq_zero_iff (fun p => p.voltage - sumX ps / ps.length) ps).mpr
    intro p hp
    rw [hconst p hp, hsum]
    field_simp

theorem FitResult.ext_fields (r s : FitResult) (h1 : r.slope = s.slope)
    (h2 : r.intercept = s.intercept) (h3 : r.rSquared = s.rSquared) : r = s := by
  cases r; cases s; simp_all

theorem sumY_linear (ps : List Point) (hy : ∀ p ∈ ps, p.current = 2 * p.voltage + 1) :
    sumY ps = 2 * sumX ps + ps.length := by
  induction ps with
  | nil => simp [sumY, sumX]
  | cons p ps ih =>
    have hp := hy p (List.mem_cons_self p ps)
    have ih' := ih (fun q hq => hy q (List.mem_cons_of_mem p hq))
    simp only [sumY, sumX, List.map_cons, List.sum_cons, List.length_cons,
      Nat.cast_succ] at ih' ⊢
    rw [hp, ih']
    ring

theorem sumXY_linear (ps : List Point) (hy : ∀ p ∈ ps, p.current = 2 * p.voltage + 1) :
    sumXY ps = 2 * sumXX ps + sumX ps := by
  induction ps with
  | nil => simp [sumXY, sumXX, sumX]
  | cons p ps ih =>
    have hp := hy p (List.mem_cons_self p ps)
    have ih' := ih (fun q hq => hy q (List.mem_cons_of_mem p hq))
    simp only [sumXY, sumXX, sumX, List.map_cons, List.sum_cons] at ih' ⊢
    rw [hp, ih']
    ring

/-! ## Claims -/

/-- C1: for every sequence of measurements, `calculateLinearRegression` returns
slope equal to `(n·Σxy − Σx·Σy) / (n·Σx² − Σx·Σx)` and intercept equal to
`(Σy − slope·Σx) / n`, where `n` is the sequence length and the sums range
over all points of the sequence. -/
theorem fit_slope_intercept_formula (ps : List Point) :
    (calculateLinearRegression ps).slope =
      ((ps.length : ℚ) * sumXY ps - sumX ps * sumY ps)
        / ((ps.length : ℚ) * sumXX ps - sumX ps * sumX ps) ∧
    (calculateLinearRegression ps).intercept =
      (sumY ps - (calculateLinearRegression ps).slope * sumX ps) / (ps.length : ℚ) :=
  ⟨fit_slope_eq ps, fit_intercept_eq ps⟩

/-- C2: for every sequence of measurements, `calculateLinearRegression` returns
`rSquared = explainedVariation / totalVariation`, where
`meanY = Σy / n`, `totalVariation = Σ(y − meanY)²`,
`explainedVariation = Σ(ŷ − meanY)²`, and `ŷ = slope·x + intercept` uses the
slope and intercept computed by the same fit (see the definitions `meanY`,
`totalVariation`, `explainedVariation`). -/
theorem fit_rSquared_formula (ps : List Point) :
    (calculateLinearRegression ps).rSquared =
      explainedVariation ps / totalVariation ps :=
  fit_rSquared_eq ps

/-- C3: whenever slope and intercept are available (`some`), applying
`generateBestFitLine` to a non-empty point sequence returns exactly the two
points `(minX, slope·minX + intercept)` and `(maxX, slope·maxX + intercept)`,
where `minX`/`maxX` are the minimum and maximum x-values over the whole input
set (witnessed below as a member that bounds every x-value), and the y-values
equal `slope·x + intercept` exactly. -/
theorem bestFitSegment_endpoints (g b : ℚ) (ps : List Point) (h : ps ≠ []) :
    ∃ m M : ℚ,
      m ∈ ps.map (·.voltage) ∧ (∀ x ∈ ps.map (·.voltage), m ≤ x) ∧
      M ∈ ps.map (·.voltage) ∧ (∀ x ∈ ps.map (·.voltage), x ≤ M) ∧
      generateBestFitLine (some g) (some b) ps =
        [⟨m, g * m + b⟩, ⟨M, g * M + b⟩] := by
  have hxs : ps.map (·.voltage) ≠ [] := by
    simpa [List.map_eq_nil_iff] using h
  refine ⟨listMin (ps.map (·.voltage)), listMax (ps.map (·.voltage)),
    listMin_mem _ hxs, fun x hx => listMin_le _ x hx,
    listMax_mem _ hxs, fun x hx => listMax_ge _ x hx, ?_⟩
  simp only [generateBestFitLine]
  rw [mul_comm g (listMin (ps.map (·.voltage))), mul_comm g (listMax (ps.map (·.voltage)))]

/-- C3 witness at a concrete input. -/
theorem bestFitSegment_endpoints_witness :
    (([⟨0, 0⟩, ⟨1, 5⟩] : List Point) ≠ []) ∧
    ∃ m M : ℚ,
      m ∈ ([⟨0, 0⟩, ⟨1, 5⟩] : List Point).map (·.voltage) ∧
      (∀ x ∈ ([⟨0, 0⟩, ⟨1, 5⟩] : List Point).map (·.voltage), m ≤ x) ∧
      M ∈ ([⟨0, 0⟩, ⟨1, 5⟩] : List Point).map (·.voltage) ∧
      (∀ x ∈ ([⟨0, 0⟩, ⟨1, 5⟩] : List Point).map (·.voltage), x ≤ M) ∧
      generateBestFitLine (some 2) (some 3) [⟨0, 0⟩, ⟨1, 5⟩] =
        [⟨m, 2 * m + 3⟩, ⟨M, 2 * M + 3⟩] :=
  ⟨by decide, bestFitSegment_endpoints 2 3 [⟨0, 0⟩, ⟨1, 5⟩] (by decide)⟩

/-- C4: `generateBestFitLine` returns the empty sequence exactly when the
slope or the intercept is still `null` (`none`), and otherwise a sequence of
exactly 2 points; no other length is possible. -/
theorem bestFitSegment_length (g b : Option ℚ) (ps : List Point) :
    (generateBestFitLine g b ps = [] ↔ g = none ∨ b = none) ∧
    ((generateBestFitLine g b ps).length = 0 ∨
      (generateBestFitLine g b ps).length = 2) := by
  cases g <;> cases b <;> simp [generateBestFitLine]

/-- C5: the fit is deterministic and pure: the `useEffect` run of the
component computes the three scalars as a function of the data alone (two
states with the same data receive identical slope, intercept and rSquared),
and the run leaves the data itself unchanged. -/
theorem fit_deterministic_pure (s₁ s₂ : ComponentState) (h : s₁.data = s₂.data) :
    (runRegressionEffect s₁).gradient = (runRegressionEffect s₂).gradient ∧
    (runRegressionEffect s₁).intercept = (runRegressionEffect s₂).intercept ∧
    (runRegressionEffect s₁).rSquared = (runRegressionEffect s₂).rSquared ∧
    (runRegressionEffect s₁).data = s₁.data := by
  simp [runRegressionEffect, h]

/-- C5 witness at a concrete input. -/
theorem fit_deterministic_pure_witness :
    ((⟨none, none, none, [⟨1, 2⟩]⟩ : ComponentState).data =
      (⟨some 7, none, some 0, [⟨1, 2⟩]⟩ : ComponentState).data) ∧
    ((runRegressionEffect ⟨none, none, none, [⟨1, 2⟩]⟩).gradient =
      (runRegressionEffect ⟨some 7, none, some 0, [⟨1, 2⟩]⟩).gradient ∧
     (runRegressionEffect ⟨none, none, none, [⟨1, 2⟩]⟩).intercept =
      (runRegressionEffect ⟨some 7, none, some 0, [⟨1, 2⟩]⟩).intercept ∧
     (runRegressionEffect ⟨none, none, none, [⟨1, 2⟩]⟩).rSquared =
      (runRegressionEffect ⟨some 7, none, some 0, [⟨1, 2⟩]⟩).rSquared ∧
     (runRegressionEffect ⟨none, none, none, [⟨1, 2⟩]⟩).data =
      (⟨none, none, none, [⟨1, 2⟩]⟩ : ComponentState).data) :=
  ⟨rfl, fit_deterministic_pure ⟨none, none, none, [⟨1, 2⟩]⟩
    ⟨some 7, none, some 0, [⟨1, 2⟩]⟩ rfl⟩

/-- C6: for every input sequence and every permutation of it,
`calculateLinearRegression` returns the same slope, intercept and rSquared. -/
theorem fit_perm_invariant (ps qs : List Point) (h : ps.Perm qs) :
    calculateLinearRegression ps = calculateLinearRegression qs := by
  have hlen : ((ps.length : ℚ)) = qs.length := by rw [h.length_eq]
  have hx : sumX ps = sumX qs := (h.map _).sum_eq
  have hy : sumY ps = sumY qs := (h.map _).sum_eq
  have hxy : sumXY ps = sumXY qs := (h.map _).sum_eq
  have hxx : sumXX ps = sumXX qs := (h.map _).sum_eq
  have hslope : (calculateLinearRegression ps).slope =
      (calculateLinearRegression qs).slope := by
    rw [fit_slope_eq, fit_slope_eq, hx, hy, hxy, hxx, hlen]
  have hint : (calculateLinearRegression ps).intercept =
      (calculateLinearRegression qs).intercept := by
    rw [fit_intercept_eq, fit_intercept_eq, hslope, hx, hy, hlen]
  have hmean : meanY ps = meanY qs := by rw [meanY, meanY, hy, hlen]
  have htot : totalVariation ps = totalVariation qs := by
    unfold totalVariation
    rw [hmean]
    exact (h.map _).sum_eq
  have hexp : explainedVariation ps = explainedVariation qs := by
    unfold explainedVariation
    simp only [hslope, hint, hmean]
    exact (h.map _).sum_eq
  refine FitResult.ext_fields _ _ hslope hint ?_
  rw [fit_rSquared_eq, fit_rSquared_eq, htot, hexp]

/-- C6 witness at a concrete input. -/
theorem fit_perm_invariant_witness :
    (([⟨0, 1⟩, ⟨2, 3⟩] : List Point).Perm [⟨2, 3⟩, ⟨0, 1⟩]) ∧
    calculateLinearRegression [⟨0, 1⟩, ⟨2, 3⟩] =
      calculateLinearRegression [⟨2, 3⟩, ⟨0, 1⟩] :=
  ⟨List.Perm.swap _ _ _,
   fit_perm_invariant [⟨0, 1⟩, ⟨2, 3⟩] [⟨2, 3⟩, ⟨0, 1⟩] (List.Perm.swap _ _ _)⟩

/-- C7 counterexample: on the hard-coded 9-point dataset the slope is exactly
`74297/3000 = 24.76566…`, which is not approximately `24.59` — it exceeds
`24.59` by more than `0.17`. -/
theorem fixed_dataset_slope_not_approx :
    (calculateLinearRegression data).slope = 74297 / 3000 ∧
    24.59 + 17 / 100 < (calculateLinearRegression data).slope := by
  constructor <;> norm_num [calculateLinearRegression, data, accumStep]

/-- C7 (amended): for the fixed hard-coded 9-point dataset, the fit returns
slope exactly `74297/3000 ≈ 24.77` (to two decimals; not `24.59`), and
rSquared strictly less than 1 but close to 1 (above `0.98`). -/
theorem fixed_dataset_slope_rSquared :
    (calculateLinearRegression data).slope = 74297 / 3000 ∧
    2476 / 100 < (calculateLinearRegression data).slope ∧
    (calculateLinearRegression data).slope < 2477 / 100 ∧
    (calculateLinearRegression data).rSquared < 1 ∧
    98 / 100 < (calculateLinearRegression data).rSquared := by
  refine ⟨?_, ?_, ?_, ?_, ?_⟩ <;>
    norm_num [calculateLinearRegression, data, accumStep]

/-- C8: the slope denominator `n·Σx² − (Σx)²` of the fit vanishes exactly when
all x-values of the (non-empty) input are identical — in particular for a
single-point input or for two or more points sharing one x-value.  In the
source's IEEE arithmetic a zero denominator is precisely the case in which the
division yields a non-finite slope (NaN for `0/0`, ±Infinity otherwise)
instead of raising an exception; in this exact embedding division is total, so
the computation always completes. -/
theorem degenerate_slope_denominator (ps : List Point) (h : ps ≠ []) :
    slopeDenominator ps = 0 ↔ ∀ p ∈ ps, ∀ q ∈ ps, p.voltage = q.voltage :=
  slopeDenominator_eq_zero_iff ps h

/-- C8 witness at a concrete input (two points sharing the x-value `1`). -/
theorem degenerate_slope_denominator_witness :
    (([⟨1, 2⟩, ⟨1, 3⟩] : List Point) ≠ []) ∧
    (slopeDenominator [⟨1, 2⟩, ⟨1, 3⟩] = 0 ↔
      ∀ p ∈ ([⟨1, 2⟩, ⟨1, 3⟩] : List Point), ∀ q ∈ ([⟨1, 2⟩, ⟨1, 3⟩] : List Point),
        p.voltage = q.voltage) :=
  ⟨by decide, degenerate_slope_denominator [⟨1, 2⟩, ⟨1, 3⟩] (by decide)⟩

/-- C9: for every input of two or more points with pairwise distinct x-values
whose y-values exactly satisfy `y = 2x + 1`, the fit returns `slope = 2`,
`intercept = 1` and `rSquared = 1`. -/
theorem perfect_fit_line (ps : List Point) (h2 : 2 ≤ ps.length)
    (hdist : ps.Pairwise (fun p q => p.voltage ≠ q.voltage))
    (hy : ∀ p ∈ ps, p.current = 2 * p.voltage + 1) :
    calculateLinearRegression ps = ⟨2, 1, 1⟩ := by
  match ps, h2, hdist, hy with
  | a :: b :: t, h2, hdist, hy =>
  set ps := a :: b :: t with hps
  have hab : a.voltage ≠ b.voltage :=
    (List.pairwise_cons.mp hdist).1 b (List.mem_cons_self b t)
  have hne : ps ≠ [] := List.cons_ne_nil a (b :: t)
  have hn := length_cast_ne_zero ps hne
  have hmema : a ∈ ps := List.mem_cons_self a (b :: t)
  have hmemb : b ∈ ps := List.mem_cons_of_mem a (List.mem_cons_self b t)
  have hnotall : ¬ ∀ p ∈ ps, ∀ q ∈ ps, p.voltage = q.voltage :=
    fun hall => hab (hall a hmema b hmemb)
  have hD : slopeDenominator ps ≠ 0 :=
    fun h0 => hnotall ((slopeDenominator_eq_zero_iff ps hne).mp h0)
  have hD' : (ps.length : ℚ) * sumXX ps - sumX ps * sumX ps ≠ 0 := by
    simpa [slopeDenominator] using hD
  have hslope : (calculateLinearRegression ps).slope = 2 := by
    rw [fit_slope_eq, sumXY_linear ps hy, sumY_linear ps hy]
    have hnum : (ps.length : ℚ) * (2 * sumXX ps + sumX ps)
        - sumX ps * (2 * sumX ps + ps.length)
        = 2 * ((ps.length : ℚ) * sumXX ps - sumX ps * sumX ps) := by ring
    rw [hnum, mul_div_assoc, div_self hD', mul_one]
  have hint : (calculateLinearRegression ps).intercept = 1 := by
    rw [fit_intercept_eq, hslope, sumY_linear ps hy]
    have hsub : 2 * sumX ps + (ps.length : ℚ) - 2 * sumX ps = ps.length := by ring
    rw [hsub, div_self hn]
  have hEq : explainedVariation ps = totalVariation ps := by
    unfold explainedVariation totalVariation
    apply congrArg List.sum
    apply List.map_congr_left
    intro p hp
    rw [hslope, hint, hy p hp]
  have hTne : totalVariation ps ≠ 0 := by
    intro h0
    unfold totalVariation at h0
    have hall := (sum_sq_eq_zero_iff (fun p => p.current - meanY ps) ps).mp h0
    have ha := sub_eq_zero.mp (hall a hmema)
    have hb := sub_eq_zero.mp (hall b hmemb)
    apply hab
    have hya := hy a hmema
    have hyb := hy b hmemb
    have h2ab : (2 : ℚ) * a.voltage + 1 = 2 * b.voltage + 1 := by
      rw [← hya, ← hyb, ha, hb]
    linarith
  refine FitResult.ext_fields _ _ hslope hint ?_
  rw [fit_rSquared_eq, hEq, div_self hTne]

/-- C9 witness at a concrete input: `(0, 1)` and `(1, 3)` lie on `y = 2x + 1`. -/
theorem perfect_fit_line_witness :
    (2 ≤ ([⟨0, 1⟩, ⟨1, 3⟩] : List Point).length ∧
     ([⟨0, 1⟩, ⟨1, 3⟩] : List Point).Pairwise (fun p q => p.voltage ≠ q.voltage) ∧
     ∀ p ∈ ([⟨0, 1⟩, ⟨1, 3⟩] : List Point), p.current = 2 * p.voltage + 1) ∧
    calculateLinearRegression [⟨0, 1⟩, ⟨1, 3⟩] = ⟨2, 1, 1⟩ :=
  ⟨⟨by decide, by decide, by norm_num⟩,
   perfect_fit_line [⟨0, 1⟩, ⟨1, 3⟩] (by decide) (by decide) (by norm_num)⟩

/-- C10: for every non-empty input whose slope denominator `n·Σx² − (Σx)²` is
non-zero, the fitted line passes through the centroid:
`slope·(Σx/n) + intercept = Σy/n`. -/
theorem fit_line_through_centroid (ps : List Point) (h : ps ≠ [])
    (hd : slopeDenominator ps ≠ 0) :
    (calculateLinearRegression ps).slope * (sumX ps / ps.length)
      + (calculateLinearRegression ps).intercept = sumY ps / ps.length := by
  have hn := length_cast_ne_zero ps h
  rw [fit_intercept_eq]
  field_simp

/-- C10 witness at a concrete input. -/
theorem fit_line_through_centroid_witness :
    (([⟨0, 0⟩, ⟨1, 1⟩] : List Point) ≠ [] ∧
     slopeDenominator [⟨0, 0⟩, ⟨1, 1⟩] ≠ 0) ∧
    (calculateLinearRegression [⟨0, 0⟩, ⟨1, 1⟩]).slope
        * (sumX [⟨0, 0⟩, ⟨1, 1⟩] / ([⟨0, 0⟩, ⟨1, 1⟩] : List Point).length)
      + (calculateLinearRegression [⟨0, 0⟩, ⟨1, 1⟩]).intercept
      = sumY [⟨0, 0⟩, ⟨1, 1⟩] / ([⟨0, 0⟩, ⟨1, 1⟩] : List Point).length :=
  ⟨⟨by decide, by norm_num [slopeDenominator, sumXX, sumX]⟩,
   fit_line_through_centroid [⟨0, 0⟩, ⟨1, 1⟩] (by decide)
     (by norm_num [slopeDenominator, sumXX, sumX])⟩
